import Mathlib

/-!
Shallow embedding of the interactive topology editor in
`topologyWebviewController.ts` (vscode-containerlab): the endpoint
allocator, edge-draw eligibility, the updateTopology message handler,
the deployment-lock state machine, the debounced autosave pipeline,
the save serialization protocol, and the click-dispatch / delete
operations of the edit mode.
-/

/- ### Endpoint allocator (`getNextEndpoint`, lines 1014-1049) -/

/-- Decimal value of a digit list, as `parseInt(match, 10)` computes it on an
all-digit capture (leading zeros allowed). -/
def digitsToNat (cs : List Char) : Nat :=
  cs.foldl (fun a c => a * 10 + (c.toNat - 48)) 0

/-- An interface-name pattern, i.e. the template string split at its single
numeric placeholder: the source keeps the template whole (for example the
default Ethernet-style template) and turns it into the regex
`^` + escaped text + `(\d+)` + escaped text + `$`; here `pre` and `suf` are
the escaped literal text before and after the capture group. -/
structure IfacePattern where
  pre : String
  suf : String
deriving DecidableEq, Repr

/-- Instantiation of the pattern: `pattern.replace` of the placeholder by
the decimal print of `n`. -/
def formatPattern (p : IfacePattern) (n : Nat) : String :=
  p.pre ++ Nat.repr n ++ p.suf

/-- Whether `s` matches `^pre(\d+)suf$`, returning the captured number.
Because `pre` and `suf` have fixed lengths, the regex matches exactly when
the middle segment of `s` is a nonempty digit string. -/
def matchNumL (pre suf s : List Char) : Option Nat :=
  if pre.isPrefixOf s && suf.isSuffixOf s
      && decide (pre.length + suf.length < s.length) then
    let mid := (s.drop pre.length).take (s.length - pre.length - suf.length)
    if mid.all Char.isDigit then some (digitsToNat mid) else none
  else none

/-- Regex match of an endpoint string against the pattern. -/
def matchNum (p : IfacePattern) (s : String) : Option Nat :=
  matchNumL p.pre.data p.suf.data s.data

/-- One edge of the cytoscape element model, with its per-endpoint
interface-name strings and the "editor" provenance flag. -/
structure EdgeEl where
  id : String
  source : String
  target : String
  sourceEndpoint : String
  targetEndpoint : String
  editor : String
deriving DecidableEq, Repr

/-- The selector `[source = nodeId], [target = nodeId]`: edges incident to
the node. -/
def incidentEdges (edges : List EdgeEl) (nodeId : String) : List EdgeEl :=
  edges.filter (fun e => e.source == nodeId || e.target == nodeId)

/-- Contribution of the `sourceEndpoint` key of an edge: counted only when
the endpoint string is truthy and the node is the source of the edge. -/
def srcNum (p : IfacePattern) (nodeId : String) (e : EdgeEl) : Option Nat :=
  if e.source == nodeId && !(e.sourceEndpoint == "") then
    matchNum p e.sourceEndpoint
  else none

/-- Contribution of the `targetEndpoint` key of an edge: counted only when
the endpoint string is truthy and the node is the target of the edge. -/
def tgtNum (p : IfacePattern) (nodeId : String) (e : EdgeEl) : Option Nat :=
  if e.target == nodeId && !(e.targetEndpoint == "") then
    matchNum p e.targetEndpoint
  else none

/-- Set insertion `usedNumbers.add(n)` of a JS `Set`, lifted over the
optional match. -/
def addUsed (acc : List Nat) : Option Nat → List Nat
  | none => acc
  | some n => if n ∈ acc then acc else n :: acc

/-- The `usedNumbers` set accumulated over a list of incident edges, probing
the source key and then the target key of each edge. -/
def usedNumbersOf (p : IfacePattern) (nodeId : String)
    (inc : List EdgeEl) : List Nat :=
  inc.foldl (fun acc e => addUsed (addUsed acc (srcNum p nodeId e)) (tgtNum p nodeId e)) []

/-- The `usedNumbers` set of the allocator: numbers of pattern-matching
endpoints on edges incident to the node. -/
def usedNumbers (p : IfacePattern) (nodeId : String)
    (edges : List EdgeEl) : List Nat :=
  usedNumbersOf p nodeId (incidentEdges edges nodeId)

/-- The `while (usedNumbers.has(endpointNum)) endpointNum++` loop, with
explicit fuel.  The source loop terminates because every number above the
largest used number is free; any fuel at least that large computes the
same value the loop does. -/
def nextFreeFrom : Nat → List Nat → Nat → Nat
  | 0, _, k => k
  | fuel + 1, used, k => if k ∈ used then nextFreeFrom fuel used (k + 1) else k

/-- Upper bound of a used-number list. -/
def maxUsed (used : List Nat) : Nat :=
  used.foldr max 0

/-- The loop `let endpointNum = 1; while (usedNumbers.has(endpointNum))
endpointNum++;` of `getNextEndpoint`. -/
def nextFree (used : List Nat) : Nat :=
  nextFreeFrom (maxUsed used + 2) used 1

/-- `getNextEndpoint`, given the resolved pattern of the node kind: formats
the first number from 1 on that no pattern-matching incident endpoint uses. -/
def getNextEndpoint (p : IfacePattern) (nodeId : String)
    (edges : List EdgeEl) : String :=
  formatPattern p (nextFree (usedNumbers p nodeId edges))

/-- The default pattern `ifaceMap[kind] || ...` falls back to, the
Ethernet-style template with empty text after the placeholder. -/
def ethPattern : IfacePattern := ⟨"eth", ""⟩

/-- Edges for the testable property of the spec: the node `n1` touches
interface numbers 1, 3 and 4 on its own side of its incident edges, while
the strings on the far side (including an `eth2` belonging to `m1` and to
`m2`) must not be counted. -/
def exEdges134 : List EdgeEl :=
  [⟨"e1", "n1", "m1", "eth1", "eth2", ""⟩,
   ⟨"e2", "m2", "n1", "eth2", "eth3", ""⟩,
   ⟨"e3", "n1", "m3", "eth4", "", ""⟩]

/- ### Nodes, edge-draw eligibility (`canConnect`, lines 493-504) -/

/-- One node of the element model: its role tag, its kind (from the
`extraData` bag, empty string standing for an absent kind), its optional
compound parent, and the "editor" provenance flag. -/
structure NodeEl where
  id : String
  topoViewerRole : String
  kind : String
  parent : Option String
  editor : String
deriving DecidableEq, Repr

/-- Whether `isParent()` holds of a node id over the element model: some
node has it as its compound parent. -/
def isParentNode (nodes : List NodeEl) (nid : String) : Bool :=
  nodes.any (fun c => c.parent == some nid)

/-- The `canConnect` predicate of the edgehandles options: guards an
interactive edge draw from `s` to `t` over the current node list. -/
def canConnect (nodes : List NodeEl) (s t : NodeEl) : Bool :=
  !(s.topoViewerRole == "freeText") &&
  !(t.topoViewerRole == "freeText") &&
  !(s.id == t.id) &&
  !(isParentNode nodes s.id) &&
  !(isParentNode nodes t.id) &&
  !(t.topoViewerRole == "dummyChild")

/- ### Controller state and the `ehcomplete` handler (lines 845-856) -/

/-- The controller state the allocator runs against: the element model,
the window-provided kind-to-pattern map, and the ephemeral per-session
`interfaceCounters` cache. -/
structure ControllerState where
  nodes : List NodeEl
  edges : List EdgeEl
  ifaceMap : List (String × IfacePattern)
  interfaceCounters : List (String × Nat)
deriving DecidableEq, Repr

/-- Resolution of the node kind from the extraData bag with fallback
`default`: the kind of the node with the given id, defaulting when the
node is absent or its kind is falsy. -/
def kindOfNode (nodes : List NodeEl) (nodeId : String) : String :=
  match nodes.find? (fun n => n.id == nodeId) with
  | some n => if n.kind = "" then "default" else n.kind
  | none => "default"

/-- Lookup of the kind in the window-provided pattern map, falling back to
the Ethernet-style default pattern. -/
def resolvePattern (ifaceMap : List (String × IfacePattern)) (kind : String) :
    IfacePattern :=
  match ifaceMap.find? (fun kv => kv.1 == kind) with
  | some kv => kv.2
  | none => ethPattern

/-- The controller method `getNextEndpoint(nodeId)`: resolves the kind
pattern of the node and scans the authoritative edge set.  It never reads
`interfaceCounters`. -/
def getNextEndpointS (st : ControllerState) (nodeId : String) : String :=
  getNextEndpoint (resolvePattern st.ifaceMap (kindOfNode st.nodes nodeId))
    nodeId st.edges

/-- The `ehcomplete` handler: once edgehandles has added the edge, compute
both allocator results against the current state and stamp the added edge
with them and with provenance `editor = "true"`. -/
def ehcompleteHandler (st : ControllerState) (srcId tgtId eid : String) :
    ControllerState :=
  let srcEp := getNextEndpointS st srcId
  let tgtEp := getNextEndpointS st tgtId
  { st with
    edges := st.edges.map (fun ed =>
      if ed.id == eid then
        { ed with sourceEndpoint := srcEp, targetEndpoint := tgtEp,
                  editor := "true" }
      else ed) }

/- ### `updateTopology` message handler (lines 447-476) -/

/-- One element held by the cytoscape store: its id, its attribute bag
(the non-id data fields), and its class string. -/
structure CyElement where
  id : String
  fields : List (String × String)
  classes : String
deriving DecidableEq, Repr

/-- One patch of an `updateTopology` payload: the optional `data.id`
(absent or empty string both being falsy), the other data attributes, and
the optional class string. -/
structure ElementPatch where
  id : Option String
  fields : List (String × String)
  classes : Option String
deriving DecidableEq, Repr

/-- Set one attribute in a bag: overwrite the value when the key exists,
append the pair otherwise. -/
def setField (fs : List (String × String)) (kv : String × String) :
    List (String × String) :=
  if fs.any (fun p => p.1 == kv.1) then
    fs.map (fun p => if p.1 == kv.1 then kv else p)
  else fs ++ [kv]

/-- Shallow merge `existing.data(el.data)` of the patch attributes into
the attribute bag of the element. -/
def mergeFields (base ps : List (String × String)) : List (String × String) :=
  ps.foldl setField base

/-- One iteration of the `elements.forEach` loop: skip a patch whose id is
falsy; merge data (and replace classes when a class string is present)
into an existing element; insert the patch as a new element otherwise. -/
def applyPatch (els : List CyElement) (p : ElementPatch) : List CyElement :=
  match p.id with
  | none => els
  | some i =>
    if i = "" then els
    else if els.any (fun e => e.id == i) then
      els.map (fun e =>
        if e.id == i then
          { e with fields := mergeFields e.fields p.fields,
                   classes := match p.classes with
                              | some c => c
                              | none => e.classes }
        else e)
    else els ++ [⟨i, p.fields, (p.classes).getD ""⟩]

/-- The whole `updateTopology` message handler over its patch array. -/
def updateTopologyMsg (els : List CyElement) (ps : List ElementPatch) :
    List CyElement :=
  ps.foldl applyPatch els

/- ### Deployment-lock state machine (lines 101-157, 198-258) -/

/-- The lock-relevant state of the controller: the `isEditingLocked` flag
together with the observable effects the restriction code toggles, and
counters of the destructive side effects (how often nodes were
ungrabified, how many interceptor listeners of each kind are registered,
how often the edit menus were rebuilt). -/
structure LockState where
  locked : Bool
  dragEnabled : Bool
  edgeDrawEnabled : Bool
  cursorNotAllowed : Bool
  editMenusEnabled : Bool
  ungrabifyCalls : Nat
  tapInterceptors : Nat
  cxttapInterceptors : Nat
  grabInterceptors : Nat
  menuRebuilds : Nat
deriving DecidableEq, Repr

/-- The method `applyEditingRestrictions`: returns unchanged unless the lock flag is
set; otherwise ungrabifies the nodes, disables edgehandles, disables the
editing context menus, sets the not-allowed cursor, and registers the
interceptor listeners (one `tap`, two `cxttap` and one `grab` handler). -/
def applyEditingRestrictions (s : LockState) : LockState :=
  if !s.locked then s
  else
    { s with
      dragEnabled := false,
      ungrabifyCalls := s.ungrabifyCalls + 1,
      edgeDrawEnabled := false,
      editMenusEnabled := false,
      cursorNotAllowed := true,
      tapInterceptors := s.tapInterceptors + 1,
      cxttapInterceptors := s.cxttapInterceptors + 2,
      grabInterceptors := s.grabInterceptors + 1 }

/-- The method `removeEditingRestrictions`: regrabifies the nodes, re-enables
edgehandles, restores the default cursor and rebuilds the edit context
menus.  It detaches none of the interceptor listeners. -/
def removeEditingRestrictions (s : LockState) : LockState :=
  { s with
    dragEnabled := true,
    edgeDrawEnabled := true,
    cursorNotAllowed := false,
    editMenusEnabled := true,
    menuRebuilds := s.menuRebuilds + 1 }

/-- The `deployment-state-changed` message handler of
`setupDeploymentStateListener`: record the new lock flag, then apply the
restrictions only on an Unlocked-to-Locked transition and remove them
only on a Locked-to-Unlocked transition. -/
def deploymentStateChanged (s : LockState) (isLabDeployed : Bool) : LockState :=
  let wasLocked := s.locked
  let s1 := { s with locked := isLabDeployed }
  if s1.locked && !wasLocked then applyEditingRestrictions s1
  else if !s1.locked && wasLocked then removeEditingRestrictions s1
  else s1

/- ### Debounced autosave (`debounce` lines 70-76, `setupAutoSave` 261-280) -/

/-- Timer fires of the debounced autosave callback after the first
mutation, given the later mutation times in arrival order and the time
`last` of the most recent mutation: a pending timer set at `last` fires at
`last + W` unless another mutation arrives strictly before that, in which
case `clearTimeout` cancels it and the new mutation re-arms the timer. -/
def debounceFires (W : Nat) : List Nat → Nat → List Nat
  | [], last => [last + W]
  | t :: ts, last =>
    if t < last + W then debounceFires W ts t
    else (last + W) :: debounceFires W ts t

/-- Times at which the debounced autosave callback runs, for a list of
mutation-event times in arrival order. -/
def debounceRun (W : Nat) : List Nat → List Nat
  | [] => []
  | t :: ts => debounceFires W ts t

/- ### Save serialization (`setupAutoSave` with `ManagerSaveTopo`) -/

/-- Bookkeeping of the save pipeline: saves in flight, saves queued behind
the in-flight one, and running counts of started and completed saves. -/
structure SaveState where
  inFlight : Nat
  queued : Nat
  started : Nat
  completed : Nat
deriving DecidableEq, Repr

/-- Modelled from the spec: `ManagerSaveTopo.viewportButtonsSaveTopo` (its
body is not under src/) serializes saves — a save request arriving while
one is in flight is queued behind it rather than started concurrently. -/
def requestSave (s : SaveState) : SaveState :=
  if s.inFlight = 0 then
    { s with inFlight := 1, started := s.started + 1 }
  else
    { s with queued := s.queued + 1 }

/-- Modelled from the spec: when the response of the in-flight save is
observed, the save completes, and a queued save (if any) starts then. -/
def completeSave (s : SaveState) : SaveState :=
  if s.inFlight = 0 then s
  else if s.queued = 0 then
    { s with inFlight := s.inFlight - 1, completed := s.completed + 1 }
  else
    { s with queued := s.queued - 1, started := s.started + 1,
             completed := s.completed + 1 }

/-- The two events the save pipeline reacts to: the debounce timer firing
(which issues a save request) and the response of a dispatched save being
observed. -/
inductive SaveEvent where
  | timerFire
  | responseObserved
deriving DecidableEq, Repr

/-- One step of the save pipeline. -/
def saveStep (s : SaveState) : SaveEvent → SaveState
  | .timerFire => requestSave s
  | .responseObserved => completeSave s

/-- Run the save pipeline from the initial idle state. -/
def runSaves (evs : List SaveEvent) : SaveState :=
  evs.foldl saveStep ⟨0, 0, 0, 0⟩

/-- Invariant of the save pipeline: at most one save in flight, and every
started save is either completed or the one in flight. -/
def saveInv (s : SaveState) : Prop :=
  s.inFlight ≤ 1 ∧ s.started = s.completed + s.inFlight

/- ### Click dispatch and deletions (`onNodeClick` 793-819, menu 609-626) -/

/-- The element model as a graph of nodes and edges. -/
structure Graph where
  nodes : List NodeEl
  edges : List EdgeEl
deriving DecidableEq, Repr

/-- The action classes of the edit-mode `onNodeClick` switch. -/
inductive ClickAction where
  | orphan
  | startEdgeDraw
  | deleteNode
  | noOp
deriving DecidableEq, Repr

/-- Whether `node.isChild()` holds: the node has a compound parent. -/
def isChildNode (n : NodeEl) : Bool :=
  n.parent.isSome

/-- The edit-mode `onNodeClick` switch, in source order: Ctrl on a child
node orphans it; otherwise Shift on a non-free-text node starts an edge
draw; otherwise Alt on a node with provenance flag `"true"` deletes it;
every remaining case (including the explicit textbox case) does nothing. -/
def onNodeClickAction (ctrl shiftKey altKey : Bool) (n : NodeEl) : ClickAction :=
  if ctrl && isChildNode n then .orphan
  else if shiftKey && !(n.topoViewerRole == "freeText") then .startEdgeDraw
  else if altKey && (n.editor == "true") then .deleteNode
  else .noOp

/-- One expansion step of the descendant set: add the ids of nodes whose
compound parent is already in the set. -/
def descStep (nodes : List NodeEl) (acc : List String) : List String :=
  acc ++ (nodes.filter (fun c =>
    (match c.parent with
     | some p => acc.contains p
     | none => false) && !(acc.contains c.id))).map (fun c => c.id)

/-- Descendant closure of a seed id set, with enough fuel to saturate. -/
def descClosure (nodes : List NodeEl) : Nat → List String → List String
  | 0, acc => acc
  | fuel + 1, acc => descClosure nodes fuel (descStep nodes acc)

/-- Remove the nodes whose ids are listed and every edge incident to one
of them. -/
def removeNodes (g : Graph) (rm : List String) : Graph :=
  ⟨g.nodes.filter (fun c => !(rm.contains c.id)),
   g.edges.filter (fun e => !(rm.contains e.source) && !(rm.contains e.target))⟩

/-- Removal `ele.remove()` of a node: removes the node, its descendants
and every edge incident to a removed node. -/
def removeNodeCascade (g : Graph) (nid : String) : Graph :=
  removeNodes g (descClosure g.nodes g.nodes.length [nid])

/-- Orphaning `node.move(parent: null)`: clear the compound-parent
relation of the node, touching nothing else. -/
def orphanNode (g : Graph) (nid : String) : Graph :=
  ⟨g.nodes.map (fun m => if m.id == nid then { m with parent := none } else m),
   g.edges⟩

/-- Model mutation performed by the edit-mode `onNodeClick` dispatch:
orphaning and deletion mutate the graph; starting an edge draw and the
no-op cases leave it unchanged. -/
def onNodeClickStep (g : Graph) (ctrl shiftKey altKey : Bool) (n : NodeEl) :
    Graph :=
  match onNodeClickAction ctrl shiftKey altKey n with
  | .orphan => orphanNode g n.id
  | .startEdgeDraw => g
  | .deleteNode => removeNodeCascade g n.id
  | .noOp => g

/-- The Alt+click deletion branch of `onNodeClick`: plain `node.remove()`,
with no treatment of the parent. -/
def altClickDelete (g : Graph) (nid : String) : Graph :=
  removeNodeCascade g nid

/-- The Delete Node command of the regular-node context menu: capture the
parent, remove the node, then remove the parent too when it exists and
has no children left. -/
def deleteNodeViaMenu (g : Graph) (nid : String) : Graph :=
  let par := (g.nodes.find? (fun m => m.id == nid)).bind (fun m => m.parent)
  let g1 := removeNodeCascade g nid
  match par with
  | none => g1
  | some pid =>
    if (g1.nodes.filter (fun c => c.parent == some pid)).length = 0 then
      removeNodeCascade g1 pid
    else g1

/-- A group `P` whose only child is the plain node `A`. -/
def exGraphC9 : Graph :=
  ⟨[⟨"P", "group", "", none, ""⟩,
    ⟨"A", "router", "nokia_srlinux", some "P", "true"⟩],
   []⟩

/-- The child node of `exGraphC9`. -/
def exNodeA : NodeEl := ⟨"A", "router", "nokia_srlinux", some "P", "true"⟩

/-- Two controller states identical except for their ephemeral
`interfaceCounters` caches. -/
def exStateA : ControllerState :=
  ⟨[⟨"n1", "router", "nokia_srlinux", none, ""⟩], exEdges134, [], []⟩

/-- Same element model as `exStateA` with a different counter cache. -/
def exStateB : ControllerState :=
  ⟨[⟨"n1", "router", "nokia_srlinux", none, ""⟩], exEdges134, [],
   [("n1", 7), ("m2", 3)]⟩

theorem mem_addUsed {acc : List Nat} {o : Option Nat} {m : Nat} :
    m ∈ addUsed acc o ↔ o = some m ∨ m ∈ acc := by
  cases o with
  | none => simp [addUsed]
  | some n =>
    simp only [addUsed, Option.some.injEq]
    by_cases h : n ∈ acc
    · simp only [if_pos h]
      constructor
      · exact fun hm => Or.inr hm
      · rintro (rfl | hm)
        · exact h
        · exact hm
    · simp only [if_neg h, List.mem_cons]
      constructor
      · rintro (rfl | hm)
        · exact Or.inl rfl
        · exact Or.inr hm
      · rintro (rfl | hm)
        · exact Or.inl rfl
        · exact Or.inr hm

theorem mem_usedFold (p : IfacePattern) (nid : String) :
    ∀ (inc : List EdgeEl) (acc : List Nat) (m : Nat),
      m ∈ inc.foldl
        (fun acc e => addUsed (addUsed acc (srcNum p nid e)) (tgtNum p nid e)) acc ↔
      (m ∈ acc ∨ ∃ e ∈ inc, srcNum p nid e = some m ∨ tgtNum p nid e = some m) := by
  intro inc
  induction inc with
  | nil => intro acc m; simp
  | cons e es ih =>
    intro acc m
    rw [List.foldl_cons, ih]
    simp only [mem_addUsed, List.mem_cons]
    constructor
    · rintro ((h | h | h) | ⟨e1, he1, h⟩)
      · exact Or.inr ⟨e, Or.inl rfl, Or.inr h⟩
      · exact Or.inr ⟨e, Or.inl rfl, Or.inl h⟩
      · exact Or.inl h
      · exact Or.inr ⟨e1, Or.inr he1, h⟩
    · rintro (h | ⟨e1, (rfl | he1), h⟩)
      · exact Or.inl (Or.inr (Or.inr h))
      · rcases h with h | h
        · exact Or.inl (Or.inr (Or.inl h))
        · exact Or.inl (Or.inl h)
      · exact Or.inr ⟨e1, he1, h⟩

theorem nextFreeFrom_spec : ∀ (fuel : Nat) (used : List Nat) (k : Nat),
    (∃ m, k ≤ m ∧ m < k + fuel ∧ m ∉ used) →
    nextFreeFrom fuel used k ∉ used ∧ k ≤ nextFreeFrom fuel used k ∧
      ∀ j, k ≤ j → j < nextFreeFrom fuel used k → j ∈ used := by
  intro fuel
  induction fuel with
  | zero =>
    intro used k h
    obtain ⟨m, hkm, hmk, _⟩ := h
    omega
  | succ fuel ih =>
    intro used k h
    by_cases hk : k ∈ used
    · obtain ⟨m, hkm, hmk, hm⟩ := h
      have hne : m ≠ k := fun e => hm (e ▸ hk)
      have h' := ih used (k + 1) ⟨m, by omega, by omega, hm⟩
      rw [nextFreeFrom, if_pos hk]
      refine ⟨h'.1, by omega, ?_⟩
      intro j hkj hjlt
      by_cases hjk : j = k
      · exact hjk ▸ hk
      · exact h'.2.2 j (by omega) hjlt
    · rw [nextFreeFrom, if_neg hk]
      exact ⟨hk, Nat.le_refl k, fun j h1 h2 => absurd h2 (by omega)⟩

theorem le_maxUsed : ∀ {used : List Nat} {x : Nat}, x ∈ used → x ≤ maxUsed used := by
  intro used
  induction used with
  | nil => intro x h; cases h
  | cons a l ih =>
    intro x h
    rw [maxUsed, List.foldr_cons]
    rcases List.mem_cons.mp h with rfl | h'
    · exact le_max_left _ _
    · exact le_trans (ih h') (le_max_right _ _)

theorem nextFree_spec (used : List Nat) :
    nextFree used ∉ used ∧ 1 ≤ nextFree used ∧
      ∀ j, 1 ≤ j → j < nextFree used → j ∈ used := by
  have h : ∃ m, 1 ≤ m ∧ m < 1 + (maxUsed used + 2) ∧ m ∉ used := by
    refine ⟨maxUsed used + 1, by omega, by omega, fun hm => ?_⟩
    have := le_maxUsed hm
    omega
  exact nextFreeFrom_spec _ used 1 h

theorem mem_usedNumbers (p : IfacePattern) (nid : String) (edges : List EdgeEl) (m : Nat) :
    m ∈ usedNumbers p nid edges ↔
      ∃ e ∈ edges,
        (e.source = nid ∧ e.sourceEndpoint ≠ "" ∧ matchNum p e.sourceEndpoint = some m) ∨
        (e.target = nid ∧ e.targetEndpoint ≠ "" ∧ matchNum p e.targetEndpoint = some m) := by
  rw [usedNumbers, usedNumbersOf, mem_usedFold]
  simp only [List.not_mem_nil, false_or, incidentEdges, List.mem_filter,
    srcNum, tgtNum]
  constructor
  · rintro ⟨e, ⟨he, hinc⟩, h⟩
    refine ⟨e, he, ?_⟩
    rcases h with h | h
    · split at h
      · next hc =>
        simp only [Bool.and_eq_true, beq_iff_eq, Bool.not_eq_true', beq_eq_false_iff_ne] at hc
        exact Or.inl ⟨hc.1, hc.2, h⟩
      · cases h
    · split at h
      · next hc =>
        simp only [Bool.and_eq_true, beq_iff_eq, Bool.not_eq_true', beq_eq_false_iff_ne] at hc
        exact Or.inr ⟨hc.1, hc.2, h⟩
      · cases h
  · rintro ⟨e, he, h⟩
    rcases h with ⟨h1, h2, h3⟩ | ⟨h1, h2, h3⟩
    · refine ⟨e, ⟨he, by simp [h1]⟩, Or.inl ?_⟩
      rw [if_pos (by simp [h1, h2])]
      exact h3
    · refine ⟨e, ⟨he, by simp [h1]⟩, Or.inr ?_⟩
      rw [if_pos (by simp [h1, h2])]
      exact h3

/-- C1: the endpoint allocator returns the kind-specific pattern
instantiated with the smallest positive integer not already used by a
pattern-matching endpoint on an edge incident to the node, counting the
sourceEndpoint only where the node is the source of the edge and the
targetEndpoint only where it is the target; with numbers 1, 3, 4 in use it
returns the pattern at 2, and with no incident edges the pattern at 1. -/
theorem getNextEndpoint_allocates_smallest_free :
    (∀ (p : IfacePattern) (nodeId : String) (edges : List EdgeEl),
       ∃ k, getNextEndpoint p nodeId edges = formatPattern p k ∧ 1 ≤ k ∧
         k ∉ usedNumbers p nodeId edges ∧
         ∀ j, 1 ≤ j → j < k → j ∈ usedNumbers p nodeId edges) ∧
    (∀ (p : IfacePattern) (nodeId : String) (edges : List EdgeEl) (m : Nat),
       m ∈ usedNumbers p nodeId edges ↔
         ∃ e ∈ edges,
           (e.source = nodeId ∧ e.sourceEndpoint ≠ "" ∧
              matchNum p e.sourceEndpoint = some m) ∨
           (e.target = nodeId ∧ e.targetEndpoint ≠ "" ∧
              matchNum p e.targetEndpoint = some m)) ∧
    getNextEndpoint ethPattern "n1" exEdges134 = formatPattern ethPattern 2 ∧
    getNextEndpoint ethPattern "n1" [] = formatPattern ethPattern 1 := by
  refine ⟨?_, mem_usedNumbers, by decide, by decide⟩
  intro p nodeId edges
  obtain ⟨h1, h2, h3⟩ := nextFree_spec (usedNumbers p nodeId edges)
  exact ⟨nextFree (usedNumbers p nodeId edges), rfl, h2, h1, h3⟩

/-- Witness for C1 at a concrete input: interface number 1 is counted as
used on node n1 because n1 is the source of edge e1 whose sourceEndpoint
matches the default pattern at 1. -/
theorem getNextEndpoint_allocates_smallest_free_witness :
    1 ∈ usedNumbers ethPattern "n1" exEdges134 :=
  (getNextEndpoint_allocates_smallest_free.2.1 ethPattern "n1" exEdges134 1).mpr
    ⟨⟨"e1", "n1", "m1", "eth1", "eth2", ""⟩, by decide,
     Or.inl ⟨rfl, by decide, by decide⟩⟩

/-- C2: the edge-draw eligibility predicate permits a connection exactly
when neither node has role freeText, the nodes differ, neither is a
compound parent, and the target role is not dummyChild; in particular a
draw from a node to itself, from or to a free-text node, or involving a
parent node is rejected. -/
theorem canConnect_spec :
    (∀ (nodes : List NodeEl) (s t : NodeEl),
       canConnect nodes s t = true ↔
         (s.topoViewerRole ≠ "freeText" ∧ t.topoViewerRole ≠ "freeText" ∧
          s.id ≠ t.id ∧ isParentNode nodes s.id = false ∧
          isParentNode nodes t.id = false ∧ t.topoViewerRole ≠ "dummyChild")) ∧
    (∀ (nodes : List NodeEl) (s : NodeEl), canConnect nodes s s = false) ∧
    (∀ (nodes : List NodeEl) (s t : NodeEl),
       s.topoViewerRole = "freeText" ∨ t.topoViewerRole = "freeText" →
       canConnect nodes s t = false) ∧
    (∀ (nodes : List NodeEl) (s t : NodeEl),
       isParentNode nodes s.id = true ∨ isParentNode nodes t.id = true →
       canConnect nodes s t = false) := by
  have hiff : ∀ (nodes : List NodeEl) (s t : NodeEl),
      canConnect nodes s t = true ↔
        (s.topoViewerRole ≠ "freeText" ∧ t.topoViewerRole ≠ "freeText" ∧
         s.id ≠ t.id ∧ isParentNode nodes s.id = false ∧
         isParentNode nodes t.id = false ∧ t.topoViewerRole ≠ "dummyChild") := by
    intro nodes s t
    simp only [canConnect, Bool.and_eq_true, Bool.not_eq_true', beq_eq_false_iff_ne,
      ne_eq, Bool.not_eq_true]
    tauto
  refine ⟨hiff, ?_, ?_, ?_⟩
  · intro nodes s
    rw [Bool.eq_false_iff]
    intro hc
    exact ((hiff nodes s s).mp hc).2.2.1 rfl
  · intro nodes s t h
    rw [Bool.eq_false_iff]
    intro hc
    obtain ⟨h1, h2, _⟩ := (hiff nodes s t).mp hc
    rcases h with h | h
    · exact h1 h
    · exact h2 h
  · intro nodes s t h
    rw [Bool.eq_false_iff]
    intro hc
    obtain ⟨_, _, _, h4, h5, _⟩ := (hiff nodes s t).mp hc
    rcases h with h | h
    · rw [h4] at h; cases h
    · rw [h5] at h; cases h

/-- Witness for C2 at a concrete input: a draw starting on a free-text
node is rejected. -/
theorem canConnect_spec_witness :
    canConnect [] ⟨"a", "freeText", "", none, ""⟩ ⟨"b", "router", "", none, ""⟩
      = false :=
  canConnect_spec.2.2.1 [] ⟨"a", "freeText", "", none, ""⟩
    ⟨"b", "router", "", none, ""⟩ (Or.inl rfl)

/-- C3: a patch whose data carries no id is skipped without affecting the
other patches of the same message; a patch with an unknown id is inserted
as a new element; a patch with an existing id is merged into that element
(replacing its class list when a class string is present) without
creating a duplicate. -/
theorem updateTopology_patch_semantics :
    (∀ (els : List CyElement) (fs : List (String × String)) (cs : Option String),
       applyPatch els ⟨none, fs, cs⟩ = els) ∧
    (∀ (els : List CyElement) (ps1 ps2 : List ElementPatch) (p : ElementPatch),
       p.id = none →
       updateTopologyMsg els (ps1 ++ p :: ps2) = updateTopologyMsg els (ps1 ++ ps2)) ∧
    (∀ (els : List CyElement) (p : ElementPatch) (i : String),
       p.id = some i → i ≠ "" → (∀ e ∈ els, e.id ≠ i) →
       applyPatch els p = els ++ [⟨i, p.fields, (p.classes).getD ""⟩]) ∧
    (∀ (els : List CyElement) (p : ElementPatch) (i : String),
       p.id = some i → i ≠ "" → (∃ e ∈ els, e.id = i) →
       ((applyPatch els p).map (fun e => e.id) = els.map (fun e => e.id) ∧
        (∀ e ∈ els, e.id ≠ i → e ∈ applyPatch els p) ∧
        (∀ e ∈ els, e.id = i →
          { e with fields := mergeFields e.fields p.fields,
                   classes := match p.classes with
                              | some c => c
                              | none => e.classes } ∈ applyPatch els p))) := by
  refine ⟨?_, ?_, ?_, ?_⟩
  · intro els fs cs
    rfl
  · intro els ps1 ps2 p hp
    obtain ⟨pid, pfs, pcs⟩ := p
    cases hp
    simp [updateTopologyMsg, List.foldl_append, List.foldl_cons, applyPatch]
  · intro els p i hp hne hno
    have hany : els.any (fun e => e.id == i) = false := by
      rw [Bool.eq_false_iff]
      intro h
      obtain ⟨e, he, hconf⟩ := List.any_eq_true.mp h
      exact hno e he (by simpa using hconf)
    obtain ⟨pid, pfs, pcs⟩ := p
    cases hp
    simp only [applyPatch]
    rw [if_neg hne, hany]
    rfl
  · intro els p i hp hne hex
    have hany : els.any (fun e => e.id == i) = true := by
      obtain ⟨e, he, hid⟩ := hex
      exact List.any_eq_true.mpr ⟨e, he, by simpa using hid⟩
    have happ : applyPatch els p = els.map (fun e =>
        if e.id == i then
          { e with fields := mergeFields e.fields p.fields,
                   classes := match p.classes with
                              | some c => c
                              | none => e.classes }
        else e) := by
      obtain ⟨pid, pfs, pcs⟩ := p
      cases hp
      simp only [applyPatch]
      rw [if_neg hne, hany]
      rfl
    refine ⟨?_, ?_, ?_⟩
    · rw [happ, List.map_map]
      apply List.map_congr_left
      intro e _
      by_cases h : e.id = i
      · simp [h]
      · simp [h]
    · intro e he hid
      rw [happ]
      refine List.mem_map.mpr ⟨e, he, ?_⟩
      simp [hid]
    · intro e he hid
      rw [happ]
      refine List.mem_map.mpr ⟨e, he, ?_⟩
      simp [hid]

/-- Witness for C3 at a concrete input: patching an existing element
merges the attribute and replaces the class string. -/
theorem updateTopology_patch_semantics_witness :
    (⟨"x", [("label", "b")], "cls"⟩ : CyElement) ∈
      applyPatch [⟨"x", [("label", "a")], "old"⟩]
        ⟨some "x", [("label", "b")], some "cls"⟩ := by
  have h := (updateTopology_patch_semantics.2.2.2
    [⟨"x", [("label", "a")], "old"⟩] ⟨some "x", [("label", "b")], some "cls"⟩
    "x" rfl (by decide)
    ⟨⟨"x", [("label", "a")], "old"⟩, by decide, rfl⟩).2.2
    ⟨"x", [("label", "a")], "old"⟩ (by decide) rfl
  exact h

/-- C4: delivering a deployment-state notification equal to the current
lock state is a no-op; the restriction side effects run only on an actual
Unlocked-to-Locked transition, so delivering true twice equals delivering
it once, with nodes ungrabified exactly once and no duplicate interceptor
listeners. -/
theorem deploymentState_idempotent :
    (∀ (s : LockState) (b : Bool), s.locked = b →
       deploymentStateChanged s b = s) ∧
    (∀ s : LockState,
       deploymentStateChanged (deploymentStateChanged s true) true =
         deploymentStateChanged s true) ∧
    (∀ s : LockState, s.locked = false →
       ((deploymentStateChanged s true).ungrabifyCalls = s.ungrabifyCalls + 1 ∧
        (deploymentStateChanged s true).tapInterceptors = s.tapInterceptors + 1 ∧
        (deploymentStateChanged s true).cxttapInterceptors = s.cxttapInterceptors + 2 ∧
        (deploymentStateChanged s true).grabInterceptors = s.grabInterceptors + 1 ∧
        (deploymentStateChanged s true).dragEnabled = false ∧
        (deploymentStateChanged s true).edgeDrawEnabled = false)) := by
  have h1 : ∀ (s : LockState) (b : Bool), s.locked = b →
      deploymentStateChanged s b = s := by
    intro s b hb
    cases hb
    obtain ⟨lk, d, ed, cu, em, u, ti, ci, gi, mr⟩ := s
    cases lk <;> simp [deploymentStateChanged]
  have hlockedTrue : ∀ s : LockState, (deploymentStateChanged s true).locked = true := by
    intro s
    obtain ⟨lk, d, ed, cu, em, u, ti, ci, gi, mr⟩ := s
    cases lk <;> simp [deploymentStateChanged, applyEditingRestrictions]
  refine ⟨h1, fun s => h1 _ true (hlockedTrue s), ?_⟩
  intro s hs
  obtain ⟨lk, d, ed, cu, em, u, ti, ci, gi, mr⟩ := s
  simp only at hs
  cases hs
  simp [deploymentStateChanged, applyEditingRestrictions]

/-- Witness for C4 at a concrete input: from the unlocked initial state,
a second true delivery changes nothing and the first one ungrabified the
nodes exactly once. -/
theorem deploymentState_idempotent_witness :
    (deploymentStateChanged
       (deploymentStateChanged ⟨false, true, true, false, true, 0, 0, 0, 0, 0⟩ true) true =
     deploymentStateChanged ⟨false, true, true, false, true, 0, 0, 0, 0, 0⟩ true) ∧
    (deploymentStateChanged ⟨false, true, true, false, true, 0, 0, 0, 0, 0⟩ true).ungrabifyCalls = 1 :=
  ⟨deploymentState_idempotent.2.1 ⟨false, true, true, false, true, 0, 0, 0, 0, 0⟩,
   (deploymentState_idempotent.2.2 ⟨false, true, true, false, true, 0, 0, 0, 0, 0⟩ rfl).1⟩

/-- C5: the autosave debounce is trailing-edge — a mutation arriving
within the quiet period of the pending timer resets it, so five mutations
each within the quiet period of the previous one yield exactly one
callback run, one quiet period after the last of them, and a sixth
mutation after the quiet period elapsed yields a second, separate run. -/
theorem autosave_debounce_coalesces :
    (∀ (W last t : Nat) (ts : List Nat), t < last + W →
       debounceFires W (t :: ts) last = debounceFires W ts t) ∧
    (∀ (W t1 t2 t3 t4 t5 t6 : Nat),
       t1 ≤ t2 → t2 < t1 + W →
       t2 ≤ t3 → t3 < t2 + W →
       t3 ≤ t4 → t4 < t3 + W →
       t4 ≤ t5 → t5 < t4 + W →
       debounceRun W [t1, t2, t3, t4, t5] = [t5 + W] ∧
       (t5 + W < t6 → debounceRun W [t1, t2, t3, t4, t5, t6] = [t5 + W, t6 + W])) := by
  constructor
  · intro W last t ts h
    rw [debounceFires, if_pos h]
  · intro W t1 t2 t3 t4 t5 t6 h12 h12w h23 h23w h34 h34w h45 h45w
    constructor
    · rw [debounceRun, debounceFires, if_pos h12w, debounceFires, if_pos h23w,
        debounceFires, if_pos h34w, debounceFires, if_pos h45w, debounceFires]
    · intro h56
      rw [debounceRun, debounceFires, if_pos h12w, debounceFires, if_pos h23w,
        debounceFires, if_pos h34w, debounceFires, if_pos h45w, debounceFires,
        if_neg (by omega), debounceFires]

/-- Witness for C5 at a concrete input: five mutations 100 ms apart with a
500 ms quiet period save once at 900, and a sixth mutation at 1000 adds a
second save at 1500. -/
theorem autosave_debounce_coalesces_witness :
    debounceRun 500 [0, 100, 200, 300, 400] = [900] ∧
    debounceRun 500 [0, 100, 200, 300, 400, 1000] = [900, 1500] := by
  have h := autosave_debounce_coalesces.2 500 0 100 200 300 400 1000
    (by decide) (by decide) (by decide) (by decide) (by decide) (by decide)
    (by decide) (by decide)
  exact ⟨h.1, h.2 (by decide)⟩

theorem saveStep_inv {s : SaveState} (h : saveInv s) (ev : SaveEvent) :
    saveInv (saveStep s ev) := by
  obtain ⟨h1, h2⟩ := h
  cases ev
  · simp only [saveStep, requestSave]
    by_cases hf : s.inFlight = 0
    · rw [if_pos hf]
      exact ⟨by simp, by simp [h2, hf]⟩
    · rw [if_neg hf]
      exact ⟨h1, h2⟩
  · simp only [saveStep, completeSave]
    by_cases hf : s.inFlight = 0
    · rw [if_pos hf]
      exact ⟨h1, h2⟩
    · rw [if_neg hf]
      by_cases hq : s.queued = 0
      · rw [if_pos hq]
        refine ⟨by simp; omega, by simp; omega⟩
      · rw [if_neg hq]
        exact ⟨h1, by simp; omega⟩

theorem foldl_saveStep_inv : ∀ (evs : List SaveEvent) (s : SaveState),
    saveInv s → saveInv (evs.foldl saveStep s) := by
  intro evs
  induction evs with
  | nil => intro s h; exact h
  | cons ev evs ih =>
    intro s h
    rw [List.foldl_cons]
    exact ih _ (saveStep_inv h ev)

theorem runSaves_inv (evs : List SaveEvent) : saveInv (runSaves evs) :=
  foldl_saveStep_inv evs ⟨0, 0, 0, 0⟩ ⟨by simp, by simp⟩

/-- C6: saves are serialized — a timer fire while a save is in flight
queues the new request instead of starting it, at most one save is in
flight after any event sequence, and a save starts on a timer fire only
when none is in flight, so the number of started saves never exceeds the
number of observed completions by more than one. -/
theorem saves_serialized :
    (∀ evs : List SaveEvent, (runSaves evs).inFlight ≤ 1) ∧
    (∀ evs : List SaveEvent,
       (runSaves evs).started ≤ (runSaves evs).completed + 1) ∧
    (∀ s : SaveState, s.inFlight ≠ 0 →
       requestSave s = { s with queued := s.queued + 1 }) ∧
    (∀ s : SaveState, (requestSave s).started = s.started + 1 → s.inFlight = 0) := by
  refine ⟨fun evs => (runSaves_inv evs).1, ?_, ?_, ?_⟩
  · intro evs
    obtain ⟨h1, h2⟩ := runSaves_inv evs
    omega
  · intro s hf
    rw [requestSave, if_neg hf]
  · intro s h
    by_contra hf
    rw [requestSave, if_neg hf] at h
    simp at h

/-- Witness for C6 at a concrete input: a timer fire while a save is in
flight only queues the request. -/
theorem saves_serialized_witness :
    requestSave ⟨1, 0, 1, 0⟩ = ⟨1, 1, 1, 0⟩ :=
  saves_serialized.2.2.1 ⟨1, 0, 1, 0⟩ (by decide)

/-- C7: the allocator result depends only on the kind pattern of the node
and its incident edges — two states agreeing on those but with arbitrary
interface counters yield identical results — and the `ehcomplete` handler
stamps the completed edge with exactly the two allocator results and the
editor provenance flag. -/
theorem allocator_counter_independent :
    (∀ (st1 st2 : ControllerState) (nodeId : String),
       st1.ifaceMap = st2.ifaceMap →
       kindOfNode st1.nodes nodeId = kindOfNode st2.nodes nodeId →
       incidentEdges st1.edges nodeId = incidentEdges st2.edges nodeId →
       getNextEndpointS st1 nodeId = getNextEndpointS st2 nodeId) ∧
    (∀ (st : ControllerState) (srcId tgtId eid : String) (e : EdgeEl),
       e ∈ st.edges → e.id = eid →
       { e with sourceEndpoint := getNextEndpointS st srcId,
                targetEndpoint := getNextEndpointS st tgtId,
                editor := "true" } ∈ (ehcompleteHandler st srcId tgtId eid).edges) := by
  constructor
  · intro st1 st2 nodeId hmap hkind hinc
    simp only [getNextEndpointS, getNextEndpoint, usedNumbers]
    rw [hmap, hkind, hinc]
  · intro st srcId tgtId eid e he hid
    simp only [ehcompleteHandler]
    refine List.mem_map.mpr ⟨e, he, ?_⟩
    rw [if_pos (by simp [hid])]

/-- Witness for C7 at a concrete input: two states that differ only in
their interface-counter caches allocate the same endpoint. -/
theorem allocator_counter_independent_witness :
    getNextEndpointS exStateA "n1" = getNextEndpointS exStateB "n1" :=
  allocator_counter_independent.1 exStateA exStateB "n1" rfl rfl rfl

/-- C10: after leaving the locked state the interceptor listeners
installed on entering it stay registered: removing the editing
restrictions re-enables dragging and edge-draw, restores the cursor and
rebuilds the edit menus, but detaches no tap, cxttap or grab listener. -/
theorem removeRestrictions_keeps_interceptors :
    (∀ s : LockState,
       (removeEditingRestrictions s).tapInterceptors = s.tapInterceptors ∧
       (removeEditingRestrictions s).cxttapInterceptors = s.cxttapInterceptors ∧
       (removeEditingRestrictions s).grabInterceptors = s.grabInterceptors ∧
       (removeEditingRestrictions s).dragEnabled = true ∧
       (removeEditingRestrictions s).edgeDrawEnabled = true ∧
       (removeEditingRestrictions s).cursorNotAllowed = false ∧
       (removeEditingRestrictions s).editMenusEnabled = true ∧
       (removeEditingRestrictions s).menuRebuilds = s.menuRebuilds + 1) ∧
    (∀ s : LockState, s.locked = true →
       ((deploymentStateChanged s false).tapInterceptors = s.tapInterceptors ∧
        (deploymentStateChanged s false).cxttapInterceptors = s.cxttapInterceptors ∧
        (deploymentStateChanged s false).grabInterceptors = s.grabInterceptors ∧
        (deploymentStateChanged s false).dragEnabled = true ∧
        (deploymentStateChanged s false).edgeDrawEnabled = true)) := by
  constructor
  · intro s
    simp [removeEditingRestrictions]
  · intro s hs
    obtain ⟨lk, d, ed, cu, em, u, ti, ci, gi, mr⟩ := s
    simp only at hs
    cases hs
    simp [deploymentStateChanged, removeEditingRestrictions]

/-- Witness for C10 at a concrete input: unlocking from a locked state
with one tap interceptor keeps that interceptor registered. -/
theorem removeRestrictions_keeps_interceptors_witness :
    (deploymentStateChanged ⟨true, false, false, true, false, 1, 1, 2, 1, 0⟩ false).tapInterceptors = 1 :=
  (removeRestrictions_keeps_interceptors.2
    ⟨true, false, false, true, false, 1, 1, 2, 1, 0⟩ rfl).1

/-- C8: the edit-mode node-click dispatch follows the fixed priority
order Ctrl-orphan, Shift-edge-draw, Alt-delete, no-op; orphaning removes
only the parent relation, leaving the node list ids and all edges
untouched, and the no-op and edge-draw-start outcomes mutate nothing. -/
theorem onNodeClick_dispatch :
    (∀ (ctrl shiftKey altKey : Bool) (n : NodeEl),
       onNodeClickAction ctrl shiftKey altKey n = ClickAction.orphan ↔
         (ctrl = true ∧ n.parent.isSome = true)) ∧
    (∀ (ctrl shiftKey altKey : Bool) (n : NodeEl),
       onNodeClickAction ctrl shiftKey altKey n = ClickAction.startEdgeDraw ↔
         (¬(ctrl = true ∧ n.parent.isSome = true) ∧ shiftKey = true ∧
          n.topoViewerRole ≠ "freeText")) ∧
    (∀ (ctrl shiftKey altKey : Bool) (n : NodeEl),
       onNodeClickAction ctrl shiftKey altKey n = ClickAction.deleteNode ↔
         (¬(ctrl = true ∧ n.parent.isSome = true) ∧
          ¬(shiftKey = true ∧ n.topoViewerRole ≠ "freeText") ∧
          altKey = true ∧ n.editor = "true")) ∧
    (∀ (g : Graph) (ctrl shiftKey altKey : Bool) (n : NodeEl),
       onNodeClickAction ctrl shiftKey altKey n = ClickAction.noOp ∨
       onNodeClickAction ctrl shiftKey altKey n = ClickAction.startEdgeDraw →
       onNodeClickStep g ctrl shiftKey altKey n = g) ∧
    (∀ (g : Graph) (ctrl shiftKey altKey : Bool) (n : NodeEl),
       onNodeClickAction ctrl shiftKey altKey n = ClickAction.orphan →
       onNodeClickStep g ctrl shiftKey altKey n = orphanNode g n.id) ∧
    (∀ (g : Graph) (ctrl shiftKey altKey : Bool) (n : NodeEl),
       onNodeClickAction ctrl shiftKey altKey n = ClickAction.deleteNode →
       onNodeClickStep g ctrl shiftKey altKey n = removeNodeCascade g n.id) ∧
    (∀ (g : Graph) (nid : String),
       (orphanNode g nid).edges = g.edges ∧
       (orphanNode g nid).nodes.map (fun m => m.id) = g.nodes.map (fun m => m.id) ∧
       (∀ m ∈ g.nodes, m.id ≠ nid → m ∈ (orphanNode g nid).nodes) ∧
       (∀ m ∈ g.nodes, m.id = nid →
          { m with parent := none } ∈ (orphanNode g nid).nodes)) := by
  refine ⟨?_, ?_, ?_, ?_, ?_, ?_, ?_⟩
  · intro ctrl shiftKey altKey n
    simp only [onNodeClickAction, isChildNode]
    split_ifs with h1 h2 h3 <;> simp_all
  · intro ctrl shiftKey altKey n
    simp only [onNodeClickAction, isChildNode]
    split_ifs with h1 h2 h3 <;> simp_all
  · intro ctrl shiftKey altKey n
    simp only [onNodeClickAction, isChildNode]
    split_ifs with h1 h2 h3 <;> simp_all
  · intro g ctrl shiftKey altKey n h
    rcases h with h | h <;> rw [onNodeClickStep, h]
  · intro g ctrl shiftKey altKey n h
    rw [onNodeClickStep, h]
  · intro g ctrl shiftKey altKey n h
    rw [onNodeClickStep, h]
  · intro g nid
    refine ⟨rfl, ?_, ?_, ?_⟩
    · rw [orphanNode, List.map_map]
      apply List.map_congr_left
      intro m _
      by_cases h : m.id = nid
      · simp [h]
      · simp [h]
    · intro m hm hid
      refine List.mem_map.mpr ⟨m, hm, ?_⟩
      simp [hid]
    · intro m hm hid
      refine List.mem_map.mpr ⟨m, hm, ?_⟩
      simp [hid]

/-- Witness for C8 at a concrete input: Ctrl+click on a child node (with
Shift and Alt also held) is classified as orphaning, and orphaning keeps
the edge list intact. -/
theorem onNodeClick_dispatch_witness :
    onNodeClickAction true true true exNodeA = ClickAction.orphan ∧
    (orphanNode exGraphC9 "A").edges = exGraphC9.edges :=
  ⟨(onNodeClick_dispatch.1 true true true exNodeA).mpr ⟨rfl, by decide⟩,
   (onNodeClick_dispatch.2.2.2.2.2.2 exGraphC9 "A").1⟩

theorem descStep_leaf (nodes : List NodeEl) (nid : String)
    (h : ∀ c ∈ nodes, c.parent ≠ some nid) :
    descStep nodes [nid] = [nid] := by
  rw [descStep]
  have hf : nodes.filter (fun c =>
      (match c.parent with
       | some p => [nid].contains p
       | none => false) && !([nid].contains c.id)) = [] := by
    rw [List.filter_eq_nil_iff]
    intro c hc hcond
    rw [Bool.and_eq_true] at hcond
    obtain ⟨h1, _⟩ := hcond
    cases hp : c.parent with
    | none => rw [hp] at h1; cases h1
    | some p =>
      rw [hp] at h1
      have hp2 : p ∈ [nid] := List.elem_iff.mp h1
      rw [List.mem_singleton] at hp2
      exact h c hc (hp2 ▸ hp)
  rw [hf]
  simp

theorem descClosure_leaf (nodes : List NodeEl) (nid : String)
    (h : ∀ c ∈ nodes, c.parent ≠ some nid) :
    ∀ fuel, descClosure nodes fuel [nid] = [nid] := by
  intro fuel
  induction fuel with
  | zero => rfl
  | succ fuel ih =>
    rw [descClosure, descStep_leaf nodes nid h]
    exact ih

theorem removeNodeCascade_leaf (g : Graph) (nid : String)
    (h : ∀ c ∈ g.nodes, c.parent ≠ some nid) :
    removeNodeCascade g nid = removeNodes g [nid] := by
  rw [removeNodeCascade, descClosure_leaf g.nodes nid h]

theorem mem_descClosure_self (nodes : List NodeEl) :
    ∀ (fuel : Nat) (acc : List String), ∀ x ∈ acc, x ∈ descClosure nodes fuel acc := by
  intro fuel
  induction fuel with
  | zero => intro acc x hx; exact hx
  | succ fuel ih =>
    intro acc x hx
    rw [descClosure]
    refine ih (descStep nodes acc) x ?_
    rw [descStep]
    exact List.mem_append_left _ hx

theorem mem_removeNodes_singleton (g : Graph) (nid : String) (c : NodeEl) :
    c ∈ (removeNodes g [nid]).nodes ↔ c ∈ g.nodes ∧ c.id ≠ nid := by
  simp [removeNodes, List.mem_filter, List.elem_iff]

/-- C9 counterexample: in the two-node graph where the group P has the
single child A, the Alt+click deletion of A (plain `node.remove()`)
leaves the now-childless parent P in the model, while the claim requires
P to be removed for every deletion of a node. -/
theorem altClickDelete_keeps_childless_parent :
    (exGraphC9.nodes.find? (fun n => n.id == "A")).map (fun n => n.parent) =
      some (some "P") ∧
    ((altClickDelete exGraphC9 "A").nodes.filter
      (fun c => c.parent == some "P")).length = 0 ∧
    (altClickDelete exGraphC9 "A").nodes.map (fun n => n.id) = ["P"] := by
  decide

/-- C9 amended: deletion through the Delete Node context-menu command
removes the parent exactly when it has no remaining children; when the
parent still has another child, the command removes only the clicked node
(and its edges) and every other node, the parent and its remaining
children included, survives unchanged. -/
theorem deleteNodeMenu_parent_cascade
    (g : Graph) (nid pid : String) (n : NodeEl)
    (hfind : g.nodes.find? (fun m => m.id == nid) = some n)
    (hpar : n.parent = some pid)
    (hleaf : ∀ c ∈ g.nodes, c.parent ≠ some nid) :
    ((∀ c ∈ g.nodes, c.id ≠ nid → c.parent ≠ some pid) →
       ∀ c ∈ (deleteNodeViaMenu g nid).nodes, c.id ≠ pid) ∧
    (∀ c ∈ g.nodes, c.id ≠ nid → c.parent = some pid →
       (deleteNodeViaMenu g nid = removeNodeCascade g nid ∧
        ∀ d ∈ g.nodes, d.id ≠ nid → d ∈ (deleteNodeViaMenu g nid).nodes)) := by
  have hmenu : deleteNodeViaMenu g nid =
      if ((removeNodeCascade g nid).nodes.filter
            (fun c => c.parent == some pid)).length = 0 then
        removeNodeCascade (removeNodeCascade g nid) pid
      else removeNodeCascade g nid := by
    simp only [deleteNodeViaMenu, hfind, Option.some_bind, hpar]
  constructor
  · intro hno c hc
    have hfilter : ((removeNodeCascade g nid).nodes.filter
        (fun c => c.parent == some pid)) = [] := by
      rw [List.filter_eq_nil_iff]
      intro d hd hdp
      rw [removeNodeCascade_leaf g nid hleaf] at hd
      obtain ⟨hdg, hdid⟩ := (mem_removeNodes_singleton g nid d).mp hd
      exact hno d hdg hdid (by simpa using hdp)
    rw [hmenu, if_pos (by rw [hfilter]; rfl)] at hc
    rw [removeNodeCascade, removeNodes] at hc
    have h2 := (List.mem_filter.mp hc).2
    intro hcid
    rw [hcid] at h2
    have hpidR : pid ∈ descClosure (removeNodeCascade g nid).nodes
        (removeNodeCascade g nid).nodes.length [pid] :=
      mem_descClosure_self _ _ _ pid (List.mem_singleton.mpr rfl)
    rw [Bool.not_eq_true'] at h2
    have helem : List.elem pid (descClosure (removeNodeCascade g nid).nodes
        (removeNodeCascade g nid).nodes.length [pid]) = false := h2
    have := List.elem_iff.mpr hpidR
    rw [helem] at this
    cases this
  · intro c hcg hcid hcpar
    have hcg1 : c ∈ (removeNodeCascade g nid).nodes := by
      rw [removeNodeCascade_leaf g nid hleaf]
      exact (mem_removeNodes_singleton g nid c).mpr ⟨hcg, hcid⟩
    have hfne : ((removeNodeCascade g nid).nodes.filter
        (fun c => c.parent == some pid)).length ≠ 0 := by
      have hmem : c ∈ (removeNodeCascade g nid).nodes.filter
          (fun c => c.parent == some pid) :=
        List.mem_filter.mpr ⟨hcg1, by simp [hcpar]⟩
      intro h0
      rw [List.length_eq_zero] at h0
      rw [h0] at hmem
      cases hmem
    rw [hmenu, if_neg hfne]
    refine ⟨rfl, ?_⟩
    intro d hd hdid
    rw [removeNodeCascade_leaf g nid hleaf]
    exact (mem_removeNodes_singleton g nid d).mpr ⟨hd, hdid⟩

/-- Witness for C9 at a concrete input: deleting the only child A of the
group P through the menu command removes the childless parent P as well. -/
theorem deleteNodeMenu_parent_cascade_witness :
    (⟨"P", "group", "", none, ""⟩ : NodeEl) ∉ (deleteNodeViaMenu exGraphC9 "A").nodes := by
  have h := (deleteNodeMenu_parent_cascade exGraphC9 "A" "P" exNodeA
    (by decide) rfl (by decide)).1 (by decide)
  intro hmem
  exact h _ hmem rfl
